import Mathlib

/-!
Verification development for the `agent` repository (Go sources under
`src/chat_engine` and companions).  The definitions below are a shallow
embedding of the Go code:

* `Message`, `ToolCall`, `Conversation` mirror the structs of
  `src/chat_engine/engine.go` (field `TollCallID` keeps the source's
  spelling, `Type'` stands for the Go field `Type`).
* `OpenAIMessage` models the OpenAI SDK's
  `ChatCompletionMessageParamUnion` at the level visible to the engine:
  which variant is set (`OfUser` / `OfAssistant` / `OfTool`), the textual
  content, the tool calls of an assistant entry, and the tool-call id of a
  tool entry.
* `ToOpenAIMessage`, `ToOpenAIMessageWithTools` and
  `Conversation.ToOpenAIMessages` are direct translations of the functions
  of the same names (engine.go lines 199-299).  The Go renderer keeps the
  set of pending tool-call ids in a `map[string]bool`; the model keeps it
  as a duplicate-free list in insertion order (Go map iteration order is
  unspecified; no theorem below depends on the order of synthesized
  placeholder messages beyond single-element cases where it is forced).
-/

structure ToolCall where
  ID : String
  Type' : String
  Name : String
  Arguments : String
  deriving Repr, DecidableEq

structure Message where
  ID : String
  Role : String
  Content : String
  ToolCalls : List ToolCall
  TollCallID : String
  deriving Repr, DecidableEq

structure Conversation where
  ID : String
  Messages : List Message
  deriving Repr, DecidableEq

/-- Go `(conv *Conversation) AddMessage`: append to the message log. -/
def Conversation.AddMessage (conv : Conversation) (msg : Message) : Conversation :=
  { conv with Messages := conv.Messages ++ [msg] }

/-- Model of the OpenAI SDK message union, as observed by the engine:
exactly one of the user / assistant / tool variants is set. -/
inductive OpenAIMessage where
  | user (content : String)
  | assistant (content : String) (toolCalls : List ToolCall)
  | tool (content : String) (toolCallID : String)
  deriving Repr, DecidableEq

/-- Role tag of a rendered entry (which union variant is set). -/
def oaRole : OpenAIMessage → String
  | .user _ => "user"
  | .assistant _ _ => "assistant"
  | .tool _ _ => "tool"

/-- Textual content of a rendered entry. -/
def oaContent : OpenAIMessage → String
  | .user c => c
  | .assistant c _ => c
  | .tool c _ => c

/-- Go `ToOpenAIMessageWithTools` (engine.go:214): an assistant message
with no tool calls becomes a plain `openai.AssistantMessage`, otherwise an
assistant param carrying the converted tool calls. -/
def ToOpenAIMessageWithTools (msg : Message) : OpenAIMessage :=
  if msg.ToolCalls = [] then .assistant msg.Content []
  else .assistant msg.Content msg.ToolCalls

/-- Go `ToOpenAIMessage` (engine.go:199): dispatch on the role string,
with the user variant as fallback for unknown roles. -/
def ToOpenAIMessage (msg : Message) : OpenAIMessage :=
  if msg.Role = "user" then .user msg.Content
  else if msg.Role = "assistant" then ToOpenAIMessageWithTools msg
  else if msg.Role = "tool" then .tool msg.Content msg.TollCallID
  else .user msg.Content

/-- Insertion into the pending set, modelling `pendingToolCalls[id] = true`
on a Go `map[string]bool` (insert if absent). -/
def addPendingId (p : List String) (id : String) : List String :=
  if p.contains id then p else p ++ [id]

/-- The placeholder tool message synthesized by the renderer
(engine.go:274 and engine.go:290). -/
def synthMissing (id : String) : OpenAIMessage :=
  .tool ("Error: missing tool response for tool_call_id " ++ id ++
    ". Conversation state may be corrupted.") id

/-- The walk of Go `ToOpenAIMessages` (engine.go:247-299), carrying the
pending tool-call ids.  Per message, in source order: (1) an assistant
message with tool calls adds its ids to the pending set; (2) a tool
message with a nonempty `TollCallID` removes that id; (3) if the current
message is an assistant message with tool calls and the pending set is
nonempty, a placeholder is emitted for every pending id (emptying the
set) before the assistant entry itself; at the end of the walk a
placeholder is emitted for every id still pending. -/
def renderStepPending (m : Message) (pending : List String) : List String :=
  let p1 := if m.Role = "assistant" ∧ m.ToolCalls ≠ [] then
      m.ToolCalls.foldl (fun p tc => addPendingId p tc.ID) pending
    else pending
  if m.Role = "tool" ∧ m.TollCallID ≠ "" then
    p1.filter (fun x => x ≠ m.TollCallID)
  else p1

def renderWalk : List Message → List String → List OpenAIMessage
  | [], pending => pending.map synthMissing
  | m :: rest, pending =>
    if m.Role = "assistant" ∧ m.ToolCalls ≠ [] ∧ renderStepPending m pending ≠ [] then
      (renderStepPending m pending).map synthMissing ++
        (ToOpenAIMessage m :: renderWalk rest [])
    else
      ToOpenAIMessage m :: renderWalk rest (renderStepPending m pending)

/-- Go `(conv *Conversation) ToOpenAIMessages` (engine.go:247). -/
def Conversation.ToOpenAIMessages (conv : Conversation) : List OpenAIMessage :=
  renderWalk conv.Messages []

/-- Is this rendered entry a tool entry answering `id`? -/
def isToolFor (id : String) : OpenAIMessage → Bool
  | .tool _ tid => tid == id
  | _ => false

/-- Rendered entries strictly before the next assistant entry that carries
tool-call requests. -/
def upToNextRequestingAssistant : List OpenAIMessage → List OpenAIMessage
  | [] => []
  | .assistant _ (_ :: _) :: _ => []
  | m :: rest => m :: upToNextRequestingAssistant rest

/-- The rendered-sequence property asserted by the specification: every
tool-call id of every assistant entry is answered by exactly one tool
entry after that assistant entry and before the next assistant entry with
new tool-call requests (or the end of the sequence). -/
def renderedPairingOK : List OpenAIMessage → Bool
  | [] => true
  | m :: rest =>
    (match m with
     | .assistant _ calls =>
       calls.all (fun tc => (upToNextRequestingAssistant rest).countP (isToolFor tc.ID) == 1)
     | _ => true) && renderedPairingOK rest

/-- The stored-log pairing invariant stated by the specification: every
tool-call id of every assistant message is answered by exactly one later
tool message before the next assistant message with tool-call requests and
before the end of the log. -/
def storedUpToNextRequestingAssistant : List Message → List Message
  | [] => []
  | m :: rest =>
    if m.Role = "assistant" ∧ m.ToolCalls ≠ [] then []
    else m :: storedUpToNextRequestingAssistant rest

def logPairingOK : List Message → Bool
  | [] => true
  | m :: rest =>
    (if m.Role = "assistant" then
      m.ToolCalls.all (fun tc =>
        (storedUpToNextRequestingAssistant rest).countP
          (fun m2 => m2.Role == "tool" && m2.TollCallID == tc.ID) == 1)
     else true) && logPairingOK rest

/-!
Process supervisor and tool executor (`src/unnamed/part_000`,
`src/unnamed/part_002`) and the orchestration loop
(`SendUserMessageWithCallback` / `executeLLMRequestedToolCalls`,
engine.go:462-739).  External effects are modelled by an `Env` of oracles:

* `llm n msgs` — the result of the `n`-th `Chat.Completions.New` call of
  the operation, applied to the outgoing message list;
* `parseJson` — `encoding/json.Unmarshal` of a tool call's argument
  payload into a string-keyed object (the Go standard library is outside
  this repository; JSON numbers arrive as Go `float64`, modelled by
  `JsonVal.num`);
* `bashRun n cmd` — combined output and optional error of the `n`-th
  synchronous `exec.Command("bash", "-c", cmd).CombinedOutput()`;
* `startProc n cmd` — PID or launch error of the `n`-th background
  `cmd.Start()`;
* `alive pid` — the signal-0 liveness probe of `ListProcesses`
  (`os.FindProcess` never fails on Unix and is not modelled);
* `killGroup` / `killProc` — outcomes of `syscall.Kill(-pid, SIGTERM)`
  and of the fallback `process.Kill()`;
* `now` / `sinceStr` — start timestamps and the rendered elapsed-time
  string of `list_processes`.

The wall clock feeding `fmt.Sprintf("msg_%d", time.Now().UnixNano())` is
modelled by the counter `tick`, so message ids are `"msg_0"`, `"msg_1"`,
… in creation order.  Database writes (`AddMessageWithDB`) never affect
the in-memory log in the source — a failed save is only logged — so the
model records every attempted save in the trace `dbTrace` and always
performs the in-memory append.  The per-message delivery callback is
modelled by the trace `cbTrace` (appended to exactly when the source
would invoke the callback, i.e. when one was supplied).  The Go code
collects the returned message list by appending the user and assistant
messages and then the loop's messages; the model accumulates the same
list in append order in `news`.  The exit-watcher goroutine of
`StartProcess` (which removes the record when the process exits) is
concurrent behaviour outside the shallow embedding; eviction of dead
records is observable through `ListProcesses`, and theorems about
`KillProcess` quantify over arbitrary registry states instead.
-/

inductive JsonVal where
  | str (s : String)
  | num (n : Int)
  | bool (b : Bool)
  | null
  deriving Repr, DecidableEq

/-- First binding of a key in the decoded argument object
(Go map indexing `args[key]`). -/
def lookupArg (args : List (String × JsonVal)) (key : String) : Option JsonVal :=
  (args.find? (fun kv => kv.1 = key)).map (fun kv => kv.2)

/-- Go `args[key].(string)`: the string value, or failure of the type
assertion (absent key or non-string value). -/
def asStr : Option JsonVal → Option String
  | some (.str s) => some s
  | _ => none

/-- Go `background, _ := args["background"].(bool)`: `false` whenever the
key is absent or not a boolean. -/
def asBool : Option JsonVal → Bool
  | some (.bool b) => b
  | _ => false

/-- Go `pidFloat, ok := args["pid"].(float64)` followed by
`pid := int(pidFloat)`. -/
def asNum : Option JsonVal → Option Int
  | some (.num n) => some n
  | _ => none

structure ProcessInfo where
  PID : Int
  Command : String
  StartTime : Nat
  ConversationID : String
  deriving Repr, DecidableEq

structure LLMReply where
  content : String
  toolCalls : List ToolCall
  deriving Repr, DecidableEq

structure Env where
  llm : Nat → List OpenAIMessage → Except String LLMReply
  parseJson : String → Except String (List (String × JsonVal))
  bashRun : Nat → String → String × Option String
  startProc : Nat → String → Except String Int
  now : Nat → Nat
  alive : Int → Bool
  killGroup : Nat → Int → Option String
  killProc : Nat → Int → Option String
  sinceStr : Nat → String
  hasCallback : Bool

/-- The process registry (`ProcessManager.processes`) together with the
oracle cursors for the side effects consumed so far. -/
structure SideState where
  pm : List ProcessInfo
  nBash : Nat
  nStart : Nat
  nKill : Nat
  deriving Repr, DecidableEq

/-- Go `ProcessManager.StartProcess` (part_002): start in its own process
group, register the record keyed by PID (map assignment overwrites any
stale record with the same PID). -/
def StartProcess (env : Env) (s : SideState) (command conversationID : String) :
    Except String ProcessInfo × SideState :=
  match env.startProc s.nStart command with
  | .error e =>
    (.error ("failed to start process: " ++ e), { s with nStart := s.nStart + 1 })
  | .ok pid =>
    let info : ProcessInfo := ⟨pid, command, env.now s.nStart, conversationID⟩
    (.ok info,
      { s with nStart := s.nStart + 1,
               pm := s.pm.filter (fun i => i.PID ≠ pid) ++ [info] })

/-- Go `ProcessManager.ListProcesses` (part_002): probe each record with
signal 0 and lazily evict the dead ones. -/
def ListProcesses (env : Env) (s : SideState) : List ProcessInfo × SideState :=
  let live := s.pm.filter (fun i => env.alive i.PID)
  (live, { s with pm := live })

/-- Go `ProcessManager.KillProcess` (part_002:107-133): unregistered PIDs
fail with "process %d not found"; otherwise SIGTERM to the process group,
falling back to killing the single process; the record is removed only on
success. -/
def KillProcess (env : Env) (s : SideState) (pid : Int) :
    Except String Unit × SideState :=
  match s.pm.find? (fun i => i.PID = pid) with
  | none => (.error ("process " ++ toString pid ++ " not found"), s)
  | some _ =>
    let k := s.nKill
    let s1 := { s with nKill := s.nKill + 1 }
    match env.killGroup k pid with
    | none => (.ok (), { s1 with pm := s1.pm.filter (fun i => i.PID ≠ pid) })
    | some _ =>
      match env.killProc k pid with
      | none => (.ok (), { s1 with pm := s1.pm.filter (fun i => i.PID ≠ pid) })
      | some e2 => (.error ("failed to kill process: " ++ e2), s1)

/-- Go `strings.TrimSpace(command) == ""`: the command consists only of
whitespace characters. -/
def isBlankCommand (command : String) : Bool :=
  command.toList.all (fun c => c.isWhitespace)

/-- Go `executeBashCommand` (part_000:56-70): whitespace-only commands are
rejected before any execution with the error "empty command" and an empty
output; otherwise the combined output is returned, together with the exit
error if any. -/
def executeBashCommand (env : Env) (s : SideState) (command : String) :
    (String × Option String) × SideState :=
  if isBlankCommand command then (("", some "empty command"), s)
  else
    let r := env.bashRun s.nBash command
    ((r.1, r.2), { s with nBash := s.nBash + 1 })

/-- Go `executeBashCommandBackground` (part_000:73-85): whitespace-only
commands are rejected before any start with the error "empty command" and
an empty output; otherwise the supervisor starts the process and a
human-readable line with the PID is returned. -/
def executeBashCommandBackground (env : Env) (s : SideState)
    (command conversationID : String) : (String × Option String) × SideState :=
  if isBlankCommand command then (("", some "empty command"), s)
  else
    match StartProcess env s command conversationID with
    | (.error e, s') => (("", some ("failed to start background process: " ++ e)), s')
    | (.ok info, s') =>
      (("Started background process (PID: " ++ toString info.PID ++ ")\nCommand: " ++
          command, none), s')

/-- The tool switch of `executeLLMRequestedToolCalls` (engine.go:560-621):
given one tool call, produce the textual result and the updated side
state.  In the `bash_command` branches the Go code assigns
`output, err = ...` and uses `output` as the message content regardless
of `err` (the error is only logged), so the content is the first
component of the executor's result. -/
def dispatch (env : Env) (side : SideState) (conversationID : String)
    (tc : ToolCall) : String × SideState :=
  if tc.Name = "bash_command" then
    match env.parseJson tc.Arguments with
    | .error e => ("Error: failed to parse tool call arguments: " ++ e, side)
    | .ok args =>
      match asStr (lookupArg args "command") with
      | none => ("Error: missing required 'command' argument", side)
      | some command =>
        if asBool (lookupArg args "background") then
          let r := executeBashCommandBackground env side command conversationID
          (r.1.1, r.2)
        else
          let r := executeBashCommand env side command
          (r.1.1, r.2)
  else if tc.Name = "list_processes" then
    let r := ListProcesses env side
    if r.1 = [] then ("No background processes running.", r.2)
    else
      ("Running background processes (" ++ toString r.1.length ++ "):\n" ++
        String.intercalate "\n" (r.1.map (fun p =>
          "PID: " ++ toString p.PID ++ " | Command: " ++ p.Command ++
            " | Running for: " ++ env.sinceStr p.StartTime)), r.2)
  else if tc.Name = "kill_process" then
    match env.parseJson tc.Arguments with
    | .error e => ("Error: failed to parse tool call arguments: " ++ e, side)
    | .ok args =>
      match asNum (lookupArg args "pid") with
      | none => ("Error: invalid PID", side)
      | some pid =>
        match KillProcess env side pid with
        | (.error e, side') => ("Error killing process: " ++ e, side')
        | (.ok _, side') => ("Successfully killed process " ++ toString pid, side')
  else ("Error: unknown tool call '" ++ tc.Name ++ "'", side)

/-- Engine state threaded through one `SendUserMessageWithCallback`
operation: the conversation, the supervisor side state, the clock
counter, the LLM-call counter, and the three observation traces. -/
structure EngState where
  conv : Conversation
  side : SideState
  tick : Nat
  nLLM : Nat
  news : List Message
  cbTrace : List Message
  dbTrace : List Message
  deriving Repr, DecidableEq

/-- One appended message: `AddMessageWithDB` (in-memory append plus an
attempted save), accumulation into the returned list, and the callback
invocation when a callback was supplied. -/
def appendNewMessage (env : Env) (st : EngState) (msg : Message) : EngState :=
  { st with
    conv := st.conv.AddMessage msg,
    news := st.news ++ [msg],
    dbTrace := st.dbTrace ++ [msg],
    cbTrace := if env.hasCallback then st.cbTrace ++ [msg] else st.cbTrace }

/-- One arm of the per-round loop body (engine.go:557-639): dispatch the
tool call and append exactly one tool message carrying its id. -/
def processOne (env : Env) (st : EngState) (tc : ToolCall) : EngState :=
  let r := dispatch env st.side st.conv.ID tc
  let msg : Message := ⟨"msg_" ++ toString st.tick, "tool", r.1, [], tc.ID⟩
  appendNewMessage env { st with side := r.2, tick := st.tick + 1 } msg

/-- One round of tool execution (engine.go:553-659): dispatch every tool
call in order, then the safety net that appends an error response for any
request id missed by the first pass (`processedToolCallIDs`). -/
def processRound (env : Env) (toolCalls : List ToolCall) (st : EngState) : EngState :=
  let st1 := toolCalls.foldl (processOne env) st
  let processed := toolCalls.map (fun tc => tc.ID)
  let unprocessed := toolCalls.filter (fun tc => !(processed.contains tc.ID))
  unprocessed.foldl (fun s tc =>
    let msg : Message := ⟨"msg_" ++ toString s.tick, "tool",
      "Error: tool call " ++ tc.ID ++ " was not processed", [], tc.ID⟩
    appendNewMessage env { s with tick := s.tick + 1 } msg) st1

/-- The pending-id scan of the pre-send double check
(engine.go:665-677), over already-rendered entries. -/
def scanPending : List OpenAIMessage → List String → List String
  | [], pending => pending
  | .assistant _ calls :: rest, pending =>
    if calls ≠ [] then
      scanPending rest (calls.foldl (fun p tc => addPendingId p tc.ID) pending)
    else scanPending rest pending
  | .tool _ tid :: rest, pending => scanPending rest (pending.filter (fun x => x ≠ tid))
  | _ :: rest, pending => scanPending rest pending

/-- The message list actually handed to the LLM inside the loop
(engine.go:661-695): the rendered conversation plus one extra error tool
message per id the double check still finds unresolved. -/
def outgoingMessages (conv : Conversation) : List OpenAIMessage :=
  let rendered := conv.ToOpenAIMessages
  rendered ++ (scanPending rendered []).map (fun id =>
    OpenAIMessage.tool ("Error: missing tool response for tool_call_id " ++ id) id)

/-- Go constant `maxIterations` (engine.go:546). -/
def maxIterations : Nat := 10

/-- The iteration structure of `executeLLMRequestedToolCalls`
(engine.go:549-732): while tool calls remain and the iteration cap is not
reached, execute the round, send the conversation to the LLM (an LLM
failure aborts the whole loop with the wrapped error), append the new
assistant message, and continue with its tool calls.  The fuel argument
is `maxIterations - iteration`. -/
def runRounds (env : Env) : Nat → List ToolCall → EngState →
    Except String Unit × EngState
  | 0, _, st => (.ok (), st)
  | _ + 1, [], st => (.ok (), st)
  | fuel + 1, tc :: rest, st =>
    let st1 := processRound env (tc :: rest) st
    match env.llm st1.nLLM (outgoingMessages st1.conv) with
    | .error e =>
      (.error ("can't send message with tool responses: " ++ e),
        { st1 with nLLM := st1.nLLM + 1 })
    | .ok reply =>
      let st2 := { st1 with nLLM := st1.nLLM + 1 }
      let amsg : Message :=
        ⟨"msg_" ++ toString st2.tick, "assistant", reply.content, reply.toolCalls, ""⟩
      let st3 := appendNewMessage env { st2 with tick := st2.tick + 1 } amsg
      runRounds env fuel reply.toolCalls st3

/-- Go `executeLLMRequestedToolCalls` (engine.go:540). -/
def executeLLMRequestedToolCalls (env : Env) (toolCalls : List ToolCall)
    (st : EngState) : Except String Unit × EngState :=
  runRounds env maxIterations toolCalls st

/-- Go `sendUserMessageToLLM` (engine.go:506-538): render the
conversation, call the LLM, and build the assistant `Message` from the
reply (an LLM failure is returned unchanged). -/
def sendUserMessageToLLM (env : Env) (st : EngState) :
    Except String Message × EngState :=
  match env.llm st.nLLM st.conv.ToOpenAIMessages with
  | .error e => (.error e, { st with nLLM := st.nLLM + 1 })
  | .ok reply =>
    let st1 := { st with nLLM := st.nLLM + 1 }
    (.ok ⟨"msg_" ++ toString st1.tick, "assistant", reply.content, reply.toolCalls, ""⟩,
      { st1 with tick := st1.tick + 1 })

def initState (conv : Conversation) (pm : List ProcessInfo) : EngState :=
  ⟨conv, ⟨pm, 0, 0, 0⟩, 0, 0, [], [], []⟩

/-- Go `SendUserMessageWithCallback` (engine.go:462-504): append the user
message (save attempted, callback invoked), call the LLM — a failure here
returns `(nil, err)` with the user message already appended — append the
assistant message, and if it requested tool calls run the tool loop,
whose error likewise returns `(nil, err)`.  On success the returned list
is user message, assistant message, then the loop's messages, in append
order. -/
def afterUserState (env : Env) (conv0 : Conversation) (pm0 : List ProcessInfo)
    (content : String) : EngState :=
  let st0 := initState conv0 pm0
  let umsg : Message := ⟨"msg_" ++ toString st0.tick, "user", content, [], ""⟩
  appendNewMessage env { st0 with tick := st0.tick + 1 } umsg

def sendRest (env : Env) (st1 : EngState) :
    Except String (List Message) × EngState :=
  match sendUserMessageToLLM env st1 with
  | (.error e, st2) => (.error e, st2)
  | (.ok rmsg, st2) =>
    let st3 := appendNewMessage env st2 rmsg
    if rmsg.ToolCalls = [] then (.ok st3.news, st3)
    else
      let r := runRounds env maxIterations rmsg.ToolCalls st3
      match r.1 with
      | .error e => (.error e, r.2)
      | .ok _ => (.ok r.2.news, r.2)

def SendUserMessageWithCallback (env : Env) (conv0 : Conversation)
    (pm0 : List ProcessInfo) (content : String) :
    Except String (List Message) × EngState :=
  sendRest env (afterUserState env conv0 pm0 content)

/-!
Concrete inputs used by the theorems and witnesses below.
-/

/-- A single tool-call request, as the LLM would issue it. -/
def tcReq : ToolCall := ⟨"tc1", "function", "bash_command", "A"⟩

/-- A conversation whose only message is an assistant message with one
unanswered tool-call request (a corrupted log). -/
def convC1 : Conversation := ⟨"c", [⟨"m1", "assistant", "", [tcReq], ""⟩]⟩

/-- A well-paired conversation log: user turn, assistant turn requesting
`tc1`, tool turn answering `tc1`. -/
def convC2 : Conversation :=
  ⟨"c", [⟨"m0", "user", "hi", [], ""⟩, ⟨"m1", "assistant", "", [tcReq], ""⟩,
         ⟨"m2", "tool", "ok", [], "tc1"⟩]⟩

/-- An environment whose JSON oracle decodes the payload "A1" to an empty
command, "A2" to a whitespace-only command with `background=true`, "P" to
`pid=12345`, "PERR" to a parse failure and "MCMD" to an object without a
"command" key; every other oracle is benign. -/
def envC6 : Env where
  llm := fun _ _ => .ok ⟨"done", []⟩
  parseJson := fun s =>
    if s = "A1" then .ok [("command", .str "")]
    else if s = "A2" then .ok [("command", .str "   "), ("background", .bool true)]
    else if s = "P" then .ok [("pid", .num 12345)]
    else if s = "MCMD" then .ok [("other", .str "y")]
    else .error "bad json"
  bashRun := fun _ _ => ("ran", none)
  startProc := fun _ _ => .ok 77
  now := fun _ => 0
  alive := fun _ => true
  killGroup := fun _ _ => none
  killProc := fun _ _ => none
  sinceStr := fun _ => "1s"
  hasCallback := true

def sideEmpty : SideState := ⟨[], 0, 0, 0⟩

def stEmpty : EngState := initState ⟨"c", []⟩ []

/-- `bash_command` call whose decoded command is the empty string. -/
def tcEmptyCmd : ToolCall := ⟨"tc1", "function", "bash_command", "A1"⟩

/-- `bash_command` call whose decoded command is whitespace-only, with
`background=true`. -/
def tcEmptyCmdBg : ToolCall := ⟨"tc2", "function", "bash_command", "A2"⟩

/-- `kill_process` call for PID 12345. -/
def tcKill : ToolCall := ⟨"k1", "function", "kill_process", "P"⟩

/-- A call with an unknown tool name. -/
def tcUnknown : ToolCall := ⟨"u1", "function", "nope", "x"⟩

/-- A `bash_command` call with malformed JSON arguments. -/
def tcBadJson : ToolCall := ⟨"p1", "function", "bash_command", "PERR"⟩

/-- A `bash_command` call whose decoded arguments lack "command". -/
def tcNoCmd : ToolCall := ⟨"m1", "function", "bash_command", "MCMD"⟩

/-- Environment whose model always requests one further tool call. -/
def envLoop : Env where
  llm := fun _ _ => .ok ⟨"", [tcUnknown]⟩
  parseJson := fun _ => .error "bad json"
  bashRun := fun _ _ => ("", none)
  startProc := fun _ _ => .error "no"
  now := fun _ => 0
  alive := fun _ => false
  killGroup := fun _ _ => none
  killProc := fun _ _ => none
  sinceStr := fun _ => ""
  hasCallback := false

/-- Environment whose model always fails. -/
def envLLMFail : Env where
  llm := fun _ _ => .error "boom"
  parseJson := fun _ => .error "bad json"
  bashRun := fun _ _ => ("", none)
  startProc := fun _ _ => .error "no"
  now := fun _ => 0
  alive := fun _ => false
  killGroup := fun _ _ => none
  killProc := fun _ _ => none
  sinceStr := fun _ => ""
  hasCallback := true

/-- The engine only ever appends: `st'` extends `st` by one common delta
`Δ` on the returned-message list, the conversation log and the attempted
database saves, and — when a callback was supplied — on the callback
trace.  This is the observation underlying the ordering guarantees. -/
def TraceDelta (env : Env) (st st' : EngState) : Prop :=
  ∃ Δ : List Message,
    st'.news = st.news ++ Δ ∧
    st'.conv.Messages = st.conv.Messages ++ Δ ∧
    st'.dbTrace = st.dbTrace ++ Δ ∧
    (env.hasCallback = true → st'.cbTrace = st.cbTrace ++ Δ)

/-!
Helper lemmas shared by several theorems.
-/

/-- Appending one message to a log and rendering it emits the entry
`ToOpenAIMessage m` somewhere in the rendered sequence (the renderer may
put synthesized placeholders around it, but always emits one entry per
stored message). -/
theorem renderWalk_append (m : Message) :
    ∀ (msgs : List Message) (pending : List String),
    ∃ pre post, renderWalk (msgs ++ [m]) pending = pre ++ ToOpenAIMessage m :: post := by
  intro msgs
  induction msgs with
  | nil =>
    intro pending
    by_cases hc : m.Role = "assistant" ∧ m.ToolCalls ≠ [] ∧ renderStepPending m pending ≠ []
    · refine ⟨(renderStepPending m pending).map synthMissing, [], ?_⟩
      rw [List.nil_append, renderWalk, if_pos hc, renderWalk]
      rfl
    · refine ⟨[], (renderStepPending m pending).map synthMissing, ?_⟩
      rw [List.nil_append, renderWalk, if_neg hc, renderWalk]
      rfl
  | cons x xs ih =>
    intro pending
    by_cases hc : x.Role = "assistant" ∧ x.ToolCalls ≠ [] ∧ renderStepPending x pending ≠ []
    · obtain ⟨pre, post, h⟩ := ih []
      refine ⟨(renderStepPending x pending).map synthMissing ++ ToOpenAIMessage x :: pre,
        post, ?_⟩
      rw [List.cons_append, renderWalk, if_pos hc, h]
      simp
    · obtain ⟨pre, post, h⟩ := ih (renderStepPending x pending)
      refine ⟨ToOpenAIMessage x :: pre, post, ?_⟩
      rw [List.cons_append, renderWalk, if_neg hc, h]
      simp

/-- For the three legal roles, conversion to the LLM format preserves the
role tag and the textual content verbatim. -/
theorem ToOpenAIMessage_preserves (msg : Message)
    (h : msg.Role = "user" ∨ msg.Role = "assistant" ∨ msg.Role = "tool") :
    oaRole (ToOpenAIMessage msg) = msg.Role ∧
    oaContent (ToOpenAIMessage msg) = msg.Content := by
  unfold ToOpenAIMessage ToOpenAIMessageWithTools
  rcases h with h | h | h
  · rw [h]
    simp [oaRole, oaContent]
  · rw [h]
    by_cases hT : msg.ToolCalls = [] <;> simp [hT, oaRole, oaContent]
  · rw [h]
    simp [oaRole, oaContent]

/-- **C1** (code bug).  The claim asserts that every tool-call id carried
by an assistant entry of the rendered sequence has exactly one tool entry
after that assistant entry (and before the next assistant entry with new
requests), with placeholders synthesized for unanswered ids.  The code
adds the current assistant message's own tool-call ids to the pending set
*before* the pending check of engine.go:268, so for the corrupted log
`convC1` (one assistant message with the unanswered request `tc1`) it
emits the synthesized placeholder *before* the assistant entry, and no
tool entry with id `tc1` appears after the assistant entry at all: the
rendered sequence violates the claimed property. -/
theorem c1_placeholder_emitted_before_assistant :
    convC1.ToOpenAIMessages = [synthMissing "tc1", OpenAIMessage.assistant "" [tcReq]] ∧
    renderedPairingOK convC1.ToOpenAIMessages = false := by
  constructor
  · rfl
  · rfl

/-- **C2** (code bug).  `convC2` is a well-paired log (user, assistant
requesting `tc1`, tool answering `tc1`): `logPairingOK` holds.  The claim
says rendering such a log emits exactly one entry per stored message and
synthesizes nothing, but because the renderer counts the current
assistant message's own fresh ids as "pending from before", it emits a
spurious placeholder for `tc1` ahead of the assistant entry: four entries
for three messages, not equal to the one-to-one rendering. -/
theorem c2_wellpaired_log_gets_placeholder :
    logPairingOK convC2.Messages = true ∧
    convC2.ToOpenAIMessages =
      [OpenAIMessage.user "hi", synthMissing "tc1",
       OpenAIMessage.assistant "" [tcReq], OpenAIMessage.tool "ok" "tc1"] ∧
    convC2.ToOpenAIMessages ≠ convC2.Messages.map ToOpenAIMessage ∧
    convC2.ToOpenAIMessages.length ≠ convC2.Messages.length := by
  refine ⟨rfl, rfl, by decide, by decide⟩

/-- **C6** (code bug).  For a `bash_command` call whose decoded command is
empty (`tcEmptyCmd`) or whitespace-only with `background=true`
(`tcEmptyCmdBg`), no command is executed — the side state, including the
execution-oracle cursors and the process registry, is returned unchanged
— but the textual result is the *empty string*, because the engine uses
only the output component of `executeBashCommand` /
`executeBashCommandBackground` as the message content and those return
`("", error)` for rejected commands.  Consequently the appended
tool-result message has empty content, contradicting the claim that it
carries a non-empty textual error. -/
theorem c6_empty_command_yields_empty_content :
    dispatch envC6 sideEmpty "c" tcEmptyCmd = ("", sideEmpty) ∧
    dispatch envC6 sideEmpty "c" tcEmptyCmdBg = ("", sideEmpty) ∧
    (processRound envC6 [tcEmptyCmd] stEmpty).conv.Messages =
      [⟨"msg_0", "tool", "", [], "tc1"⟩] ∧
    (processRound envC6 [tcEmptyCmdBg] stEmpty).conv.Messages =
      [⟨"msg_0", "tool", "", [], "tc2"⟩] := by
  refine ⟨by decide, by decide, by decide, by decide⟩

/-- **C8** (confirmed).  Appending a message with one of the three legal
roles and rendering immediately afterwards emits an entry for that
message whose role tag and content are the stored role and content,
verbatim. -/
theorem c8_roundtrip_preserves_role_content (conv : Conversation) (msg : Message)
    (h : msg.Role = "user" ∨ msg.Role = "assistant" ∨ msg.Role = "tool") :
    ∃ pre post,
      (conv.AddMessage msg).ToOpenAIMessages = pre ++ ToOpenAIMessage msg :: post ∧
      oaRole (ToOpenAIMessage msg) = msg.Role ∧
      oaContent (ToOpenAIMessage msg) = msg.Content := by
  obtain ⟨pre, post, hpp⟩ := renderWalk_append msg conv.Messages []
  obtain ⟨h1, h2⟩ := ToOpenAIMessage_preserves msg h
  exact ⟨pre, post, hpp, h1, h2⟩

/-- Witness for **C8** at a concrete conversation and message. -/
theorem c8_roundtrip_preserves_role_content_witness :
    ((⟨"m9", "user", "hello", [], ""⟩ : Message).Role = "user" ∨
      (⟨"m9", "user", "hello", [], ""⟩ : Message).Role = "assistant" ∨
      (⟨"m9", "user", "hello", [], ""⟩ : Message).Role = "tool") ∧
    ∃ pre post,
      ((⟨"c", []⟩ : Conversation).AddMessage
          ⟨"m9", "user", "hello", [], ""⟩).ToOpenAIMessages =
        pre ++ ToOpenAIMessage ⟨"m9", "user", "hello", [], ""⟩ :: post ∧
      oaRole (ToOpenAIMessage ⟨"m9", "user", "hello", [], ""⟩) =
        (⟨"m9", "user", "hello", [], ""⟩ : Message).Role ∧
      oaContent (ToOpenAIMessage ⟨"m9", "user", "hello", [], ""⟩) =
        (⟨"m9", "user", "hello", [], ""⟩ : Message).Content :=
  ⟨Or.inl rfl,
    c8_roundtrip_preserves_role_content ⟨"c", []⟩ ⟨"m9", "user", "hello", [], ""⟩
      (Or.inl rfl)⟩

/-- Executing one tool call appends exactly one message: a tool message
carrying the request's id, whose content is the dispatch result. -/
theorem processOne_messages (env : Env) (st : EngState) (tc : ToolCall) :
    (processOne env st tc).conv.Messages = st.conv.Messages ++
      [⟨"msg_" ++ toString st.tick, "tool",
        (dispatch env st.side st.conv.ID tc).1, [], tc.ID⟩] := rfl

/-- The first pass of a round appends exactly one tool message per
request, in request order, each carrying its request's id. -/
theorem foldl_processOne_messages (env : Env) :
    ∀ (tcs : List ToolCall) (st : EngState),
    ∃ newMsgs : List Message,
      (tcs.foldl (processOne env) st).conv.Messages = st.conv.Messages ++ newMsgs ∧
      newMsgs.map Message.Role = tcs.map (fun _ => "tool") ∧
      newMsgs.map Message.TollCallID = tcs.map ToolCall.ID := by
  intro tcs
  induction tcs with
  | nil => exact fun st => ⟨[], by simp, rfl, rfl⟩
  | cons tc rest ih =>
    intro st
    obtain ⟨ms, h1, h2, h3⟩ := ih (processOne env st tc)
    refine ⟨⟨"msg_" ++ toString st.tick, "tool",
      (dispatch env st.side st.conv.ID tc).1, [], tc.ID⟩ :: ms, ?_, ?_, ?_⟩
    · rw [List.foldl_cons, h1, processOne_messages, List.append_assoc]
      rfl
    · simp [h2]
    · simp [h3]

/-- The safety-net pass of a round (engine.go:642-659) finds every id
already processed — its filter is empty — so a round is exactly the first
pass. -/
theorem processRound_eq_foldl (env : Env) (tcs : List ToolCall) (st : EngState) :
    processRound env tcs st = tcs.foldl (processOne env) st := by
  have hfil : tcs.filter
      (fun tc => !((tcs.map (fun tc => tc.ID)).contains tc.ID)) = [] := by
    rw [List.filter_eq_nil_iff]
    intro tc htc
    have hm : tc.ID ∈ tcs.map (fun tc => tc.ID) := List.mem_map_of_mem _ htc
    simp [List.contains, List.elem_eq_mem, hm]
  simp only [processRound, hfil, List.foldl_nil]

/-- **C3** (confirmed).  In a round of the tool-execution loop, the first
pass appends exactly one tool-role message per request, in the order
received (the list of appended `TollCallID`s equals the list of request
ids), and when the request ids of the round are pairwise distinct each id
is carried by exactly one appended message.  The malformed-JSON,
missing-argument and unknown-tool cases produce textual error results,
and the unknown-tool round is shown appending that textual error as the
tool message.  Within `runRounds` the LLM oracle is consulted only on the
state produced by `processRound`, so the responses are appended before
the conversation is sent to the LLM again. -/
theorem c3_round_exactly_one_response_per_request (env : Env)
    (tcs : List ToolCall) (st st' : EngState) (cid : String)
    (tcU tcP tcM : ToolCall) (e : String) (argsM : List (String × JsonVal))
    (hnd : (tcs.map ToolCall.ID).Nodup)
    (hU1 : tcU.Name ≠ "bash_command") (hU2 : tcU.Name ≠ "list_processes")
    (hU3 : tcU.Name ≠ "kill_process")
    (hP1 : tcP.Name = "bash_command")
    (hP2 : env.parseJson tcP.Arguments = Except.error e)
    (hM1 : tcM.Name = "bash_command")
    (hM2 : env.parseJson tcM.Arguments = Except.ok argsM)
    (hM3 : asStr (lookupArg argsM "command") = none) :
    (∃ newMsgs : List Message,
      (processRound env tcs st).conv.Messages = st.conv.Messages ++ newMsgs ∧
      newMsgs.map Message.Role = tcs.map (fun _ => "tool") ∧
      newMsgs.map Message.TollCallID = tcs.map ToolCall.ID ∧
      ∀ tc ∈ tcs, (newMsgs.map Message.TollCallID).count tc.ID = 1) ∧
    (dispatch env st'.side cid tcU).1 = "Error: unknown tool call '" ++ tcU.Name ++ "'" ∧
    (dispatch env st'.side cid tcP).1 = "Error: failed to parse tool call arguments: " ++ e ∧
    (dispatch env st'.side cid tcM).1 = "Error: missing required 'command' argument" ∧
    (processRound env [tcU] st').conv.Messages = st'.conv.Messages ++
      [⟨"msg_" ++ toString st'.tick, "tool",
        "Error: unknown tool call '" ++ tcU.Name ++ "'", [], tcU.ID⟩] := by
  have hdU : ∀ sd : SideState, ∀ c : String,
      dispatch env sd c tcU = ("Error: unknown tool call '" ++ tcU.Name ++ "'", sd) := by
    intro sd c
    simp [dispatch, hU1, hU2, hU3]
  refine ⟨?_, ?_, ?_, ?_, ?_⟩
  · obtain ⟨newMsgs, h1, h2, h3⟩ := foldl_processOne_messages env tcs st
    refine ⟨newMsgs, by rw [processRound_eq_foldl]; exact h1, h2, h3, ?_⟩
    intro tc htc
    rw [h3]
    exact List.count_eq_one_of_mem hnd (List.mem_map_of_mem _ htc)
  · rw [hdU]
  · simp [dispatch, hP1, hP2]
  · simp [dispatch, hM1, hM2, hM3]
  · rw [processRound_eq_foldl]
    simp only [List.foldl_cons, List.foldl_nil]
    rw [processOne_messages, hdU]

/-- Witness for **C3**: two distinct requests, plus the three error-case
calls decoded by `envC6`. -/
theorem c3_round_exactly_one_response_per_request_witness :
    (([tcUnknown, tcKill].map ToolCall.ID).Nodup ∧
      tcUnknown.Name ≠ "bash_command" ∧ tcUnknown.Name ≠ "list_processes" ∧
      tcUnknown.Name ≠ "kill_process" ∧
      tcBadJson.Name = "bash_command" ∧
      envC6.parseJson tcBadJson.Arguments = Except.error "bad json" ∧
      tcNoCmd.Name = "bash_command" ∧
      envC6.parseJson tcNoCmd.Arguments = Except.ok [("other", JsonVal.str "y")] ∧
      asStr (lookupArg [("other", JsonVal.str "y")] "command") = none) ∧
    ((∃ newMsgs : List Message,
      (processRound envC6 [tcUnknown, tcKill] stEmpty).conv.Messages =
        stEmpty.conv.Messages ++ newMsgs ∧
      newMsgs.map Message.Role = [tcUnknown, tcKill].map (fun _ => "tool") ∧
      newMsgs.map Message.TollCallID = [tcUnknown, tcKill].map ToolCall.ID ∧
      ∀ tc ∈ [tcUnknown, tcKill],
        (newMsgs.map Message.TollCallID).count tc.ID = 1) ∧
    (dispatch envC6 stEmpty.side "c" tcUnknown).1 =
      "Error: unknown tool call '" ++ tcUnknown.Name ++ "'" ∧
    (dispatch envC6 stEmpty.side "c" tcBadJson).1 =
      "Error: failed to parse tool call arguments: " ++ "bad json" ∧
    (dispatch envC6 stEmpty.side "c" tcNoCmd).1 =
      "Error: missing required 'command' argument" ∧
    (processRound envC6 [tcUnknown] stEmpty).conv.Messages =
      stEmpty.conv.Messages ++
        [⟨"msg_" ++ toString stEmpty.tick, "tool",
          "Error: unknown tool call '" ++ tcUnknown.Name ++ "'", [], tcUnknown.ID⟩]) :=
  ⟨⟨by decide, by decide, by decide, by decide, rfl, rfl, rfl, rfl, rfl⟩,
    c3_round_exactly_one_response_per_request envC6 [tcUnknown, tcKill] stEmpty
      stEmpty "c" tcUnknown tcBadJson tcNoCmd "bad json" [("other", JsonVal.str "y")]
      (by decide) (by decide) (by decide) (by decide) rfl rfl rfl rfl rfl⟩

theorem TraceDelta.rfl' {env : Env} {st : EngState} : TraceDelta env st st :=
  ⟨[], by simp, by simp, by simp, fun _ => by simp⟩

theorem TraceDelta.trans' {env : Env} {a b c : EngState}
    (h1 : TraceDelta env a b) (h2 : TraceDelta env b c) : TraceDelta env a c := by
  obtain ⟨d1, n1, c1, b1, cb1⟩ := h1
  obtain ⟨d2, n2, c2, b2, cb2⟩ := h2
  exact ⟨d1 ++ d2, by rw [n2, n1, List.append_assoc],
    by rw [c2, c1, List.append_assoc], by rw [b2, b1, List.append_assoc],
    fun h => by rw [cb2 h, cb1 h, List.append_assoc]⟩

theorem traceDelta_appendNewMessage (env : Env) (st : EngState) (msg : Message) :
    TraceDelta env st (appendNewMessage env st msg) := by
  refine ⟨[msg], Eq.refl _, Eq.refl _, Eq.refl _, fun h => ?_⟩
  simp [appendNewMessage, h]

theorem traceDelta_processOne (env : Env) (st : EngState) (tc : ToolCall) :
    TraceDelta env st (processOne env st tc) :=
  traceDelta_appendNewMessage env _ _

theorem traceDelta_foldl (env : Env) :
    ∀ (tcs : List ToolCall) (st : EngState),
    TraceDelta env st (tcs.foldl (processOne env) st) := by
  intro tcs
  induction tcs with
  | nil => exact fun st => TraceDelta.rfl'
  | cons tc rest ih =>
    exact fun st => TraceDelta.trans' (traceDelta_processOne env st tc)
      (ih (processOne env st tc))

theorem traceDelta_processRound (env : Env) (tcs : List ToolCall) (st : EngState) :
    TraceDelta env st (processRound env tcs st) := by
  rw [processRound_eq_foldl]
  exact traceDelta_foldl env tcs st

theorem traceDelta_runRounds (env : Env) :
    ∀ (fuel : Nat) (tcs : List ToolCall) (st : EngState),
    TraceDelta env st (runRounds env fuel tcs st).2 := by
  intro fuel
  induction fuel with
  | zero => exact fun tcs st => TraceDelta.rfl'
  | succ f ih =>
    intro tcs st
    cases tcs with
    | nil => exact TraceDelta.rfl'
    | cons tc rest =>
      rw [runRounds]
      cases hllm : env.llm (processRound env (tc :: rest) st).nLLM
          (outgoingMessages (processRound env (tc :: rest) st).conv) with
      | error e =>
        exact TraceDelta.trans' (traceDelta_processRound env (tc :: rest) st)
          ⟨[], by simp, by simp, by simp, fun _ => by simp⟩
      | ok reply =>
        refine TraceDelta.trans' (traceDelta_processRound env (tc :: rest) st) ?_
        refine TraceDelta.trans' ?_ (ih reply.toolCalls _)
        exact traceDelta_appendNewMessage env _ _

theorem foldl_processOne_nLLM (env : Env) :
    ∀ (tcs : List ToolCall) (st : EngState),
    (tcs.foldl (processOne env) st).nLLM = st.nLLM := by
  intro tcs
  induction tcs with
  | nil => exact fun st => rfl
  | cons tc rest ih => exact fun st => ih (processOne env st tc)

theorem processRound_nLLM (env : Env) (tcs : List ToolCall) (st : EngState) :
    (processRound env tcs st).nLLM = st.nLLM := by
  rw [processRound_eq_foldl]
  exact foldl_processOne_nLLM env tcs st

/-- If every LLM call succeeds, the tool loop never returns an error
(whatever the tool executions do). -/
theorem runRounds_ok_of_llm_ok (env : Env)
    (hllm : ∀ n msgs, ∃ r, env.llm n msgs = Except.ok r) :
    ∀ (fuel : Nat) (tcs : List ToolCall) (st : EngState),
    (runRounds env fuel tcs st).1 = Except.ok () := by
  intro fuel
  induction fuel with
  | zero => intro tcs st; rfl
  | succ f ih =>
    intro tcs st
    cases tcs with
    | nil => rfl
    | cons tc rest =>
      rw [runRounds]
      obtain ⟨r, hr⟩ := hllm (processRound env (tc :: rest) st).nLLM
        (outgoingMessages (processRound env (tc :: rest) st).conv)
      simp only [hr]
      exact ih r.toolCalls _

/-- The tool loop only ever returns an error that wraps an LLM-call
failure. -/
theorem runRounds_error_from_llm (env : Env) :
    ∀ (fuel : Nat) (tcs : List ToolCall) (st : EngState) (e : String),
    (runRounds env fuel tcs st).1 = Except.error e →
    ∃ n msgs e0, env.llm n msgs = Except.error e0 ∧
      e = "can't send message with tool responses: " ++ e0 := by
  intro fuel
  induction fuel with
  | zero =>
    intro tcs st e h
    rw [runRounds] at h
    exact absurd h (by simp)
  | succ f ih =>
    intro tcs st e h
    cases tcs with
    | nil =>
      rw [runRounds] at h
      exact absurd h (by simp)
    | cons tc rest =>
      rw [runRounds] at h
      cases hllm : env.llm (processRound env (tc :: rest) st).nLLM
          (outgoingMessages (processRound env (tc :: rest) st).conv) with
      | error e0 =>
        rw [hllm] at h
        have h' : "can't send message with tool responses: " ++ e0 = e := by
          simpa using h
        exact ⟨_, _, e0, hllm, h'.symm⟩
      | ok reply =>
        rw [hllm] at h
        exact ih reply.toolCalls _ e h

/-- Under a model that always requests at least one further tool call,
the loop makes exactly `fuel` LLM calls, errors never, and appends at
least one new message whenever it runs at all. -/
theorem runRounds_cap (env : Env)
    (hllm : ∀ n msgs, ∃ r, env.llm n msgs = Except.ok r ∧ r.toolCalls ≠ []) :
    ∀ (fuel : Nat) (tcs : List ToolCall) (st : EngState), tcs ≠ [] →
    (runRounds env fuel tcs st).1 = Except.ok () ∧
    (runRounds env fuel tcs st).2.nLLM = st.nLLM + fuel ∧
    ∃ Δ : List Message, (runRounds env fuel tcs st).2.news = st.news ++ Δ ∧
      (fuel ≠ 0 → Δ ≠ []) := by
  intro fuel
  induction fuel with
  | zero =>
    intro tcs st _
    exact ⟨rfl, rfl, [], by simp [runRounds], fun h => absurd rfl h⟩
  | succ f ih =>
    intro tcs st hne
    cases tcs with
    | nil => exact absurd rfl hne
    | cons tc rest =>
      obtain ⟨r, hr, hrne⟩ := hllm (processRound env (tc :: rest) st).nLLM
        (outgoingMessages (processRound env (tc :: rest) st).conv)
      rw [runRounds]
      simp only [hr]
      obtain ⟨hok, hn, Δ2, hnews2, _⟩ := ih r.toolCalls
        (appendNewMessage env
          { processRound env (tc :: rest) st with
              nLLM := (processRound env (tc :: rest) st).nLLM + 1,
              tick := (processRound env (tc :: rest) st).tick + 1 }
          ⟨"msg_" ++ toString (processRound env (tc :: rest) st).tick, "assistant",
            r.content, r.toolCalls, ""⟩) hrne
      obtain ⟨Δ1, hnews1, _, _, _⟩ := traceDelta_processRound env (tc :: rest) st
      refine ⟨hok, ?_, ?_⟩
      · rw [hn]
        have : (appendNewMessage env
            { processRound env (tc :: rest) st with
                nLLM := (processRound env (tc :: rest) st).nLLM + 1,
                tick := (processRound env (tc :: rest) st).tick + 1 }
            ⟨"msg_" ++ toString (processRound env (tc :: rest) st).tick, "assistant",
              r.content, r.toolCalls, ""⟩).nLLM =
            (processRound env (tc :: rest) st).nLLM + 1 := rfl
        rw [this, processRound_nLLM]
        omega
      · refine ⟨Δ1 ++ (⟨"msg_" ++ toString (processRound env (tc :: rest) st).tick,
          "assistant", r.content, r.toolCalls, ""⟩ :: Δ2), ?_, fun _ => by simp⟩
        rw [hnews2]
        have : (appendNewMessage env
            { processRound env (tc :: rest) st with
                nLLM := (processRound env (tc :: rest) st).nLLM + 1,
                tick := (processRound env (tc :: rest) st).tick + 1 }
            ⟨"msg_" ++ toString (processRound env (tc :: rest) st).tick, "assistant",
              r.content, r.toolCalls, ""⟩).news =
            (processRound env (tc :: rest) st).news ++
              [⟨"msg_" ++ toString (processRound env (tc :: rest) st).tick, "assistant",
                r.content, r.toolCalls, ""⟩] := rfl
        rw [this, hnews1]
        simp

theorem sendUserMessageToLLM_lists (env : Env) (st1 : EngState) :
    (sendUserMessageToLLM env st1).2.news = st1.news ∧
    (sendUserMessageToLLM env st1).2.conv = st1.conv ∧
    (sendUserMessageToLLM env st1).2.dbTrace = st1.dbTrace ∧
    (sendUserMessageToLLM env st1).2.cbTrace = st1.cbTrace := by
  unfold sendUserMessageToLLM
  cases env.llm st1.nLLM st1.conv.ToOpenAIMessages <;> exact ⟨rfl, rfl, rfl, rfl⟩

theorem sendUserMessageToLLM_error_cases (env : Env) (st1 : EngState) (e : String)
    (st2 : EngState) (h : sendUserMessageToLLM env st1 = (Except.error e, st2)) :
    env.llm st1.nLLM st1.conv.ToOpenAIMessages = Except.error e := by
  unfold sendUserMessageToLLM at h
  cases hl : env.llm st1.nLLM st1.conv.ToOpenAIMessages with
  | error e0 =>
    rw [hl] at h
    have he : e0 = e := by simpa using congrArg Prod.fst h
    rw [he]
  | ok r =>
    rw [hl] at h
    exact absurd (congrArg Prod.fst h) (by simp)

/-- An error of the full send operation can only originate in an LLM
call: either the initial call (the error is returned unchanged) or an
in-loop call (the error is returned wrapped). -/
theorem sendRest_error_from_llm (env : Env) (st1 : EngState) (e : String)
    (h : (sendRest env st1).1 = Except.error e) :
    ∃ n msgs e0, env.llm n msgs = Except.error e0 ∧
      (e = e0 ∨ e = "can't send message with tool responses: " ++ e0) := by
  rw [sendRest] at h
  split at h
  next e' st2 heq =>
    have he : e' = e := by simpa using h
    exact ⟨st1.nLLM, st1.conv.ToOpenAIMessages, e',
      sendUserMessageToLLM_error_cases env st1 e' st2 heq, Or.inl he.symm⟩
  next rmsg st2 heq =>
    dsimp only at h
    split at h
    · exact absurd h (by simp)
    · split at h
      next e1 heq1 =>
        have he : e1 = e := by simpa using h
        obtain ⟨n, msgs, e0, hl, hw⟩ :=
          runRounds_error_from_llm env maxIterations rmsg.ToolCalls _ e1 heq1
        exact ⟨n, msgs, e0, hl, Or.inr (he ▸ hw)⟩
      next heq1 => exact absurd h (by simp)

/-- If every LLM call succeeds, the full send operation succeeds. -/
theorem sendRest_ok_of_llm_ok (env : Env) (st1 : EngState)
    (hllm : ∀ n msgs, ∃ r, env.llm n msgs = Except.ok r) :
    ∃ msgs, (sendRest env st1).1 = Except.ok msgs := by
  cases hres : (sendRest env st1).1 with
  | error e =>
    obtain ⟨n, msgs0, e0, hl, _⟩ := sendRest_error_from_llm env st1 e hres
    obtain ⟨r, hr⟩ := hllm n msgs0
    rw [hr] at hl
    exact absurd hl (by simp)
  | ok msgs => exact ⟨msgs, rfl⟩

theorem traceDelta_sendRest (env : Env) (st1 : EngState) :
    TraceDelta env st1 (sendRest env st1).2 := by
  obtain ⟨hn, hc, hd, hcb⟩ := sendUserMessageToLLM_lists env st1
  rw [sendRest]
  rcases hsend : sendUserMessageToLLM env st1 with ⟨res, st2⟩
  rw [hsend] at hn hc hd hcb
  have d1 : TraceDelta env st1 st2 :=
    ⟨[], by simpa using hn, by simpa using congrArg Conversation.Messages hc,
      by simpa using hd,
      fun _ => by simpa using hcb⟩
  cases res with
  | error e => exact d1
  | ok rmsg =>
    simp only
    by_cases hT : rmsg.ToolCalls = []
    · rw [if_pos hT]
      exact TraceDelta.trans' d1 (traceDelta_appendNewMessage env st2 rmsg)
    · rw [if_neg hT]
      have d2 := TraceDelta.trans' d1 (traceDelta_appendNewMessage env st2 rmsg)
      have d3 := traceDelta_runRounds env maxIterations rmsg.ToolCalls
        (appendNewMessage env st2 rmsg)
      cases (runRounds env maxIterations rmsg.ToolCalls (appendNewMessage env st2 rmsg)).1 with
      | error e => exact TraceDelta.trans' d2 d3
      | ok u => exact TraceDelta.trans' d2 d3

/-- **C4** (confirmed).  If every LLM call succeeds and always requests at
least one tool call, the tool loop starting from a nonempty request list
terminates at the iteration cap: it returns no error, makes exactly
`maxIterations = 10` LLM calls (one per iteration), and returns a
non-empty list of newly produced messages. -/
theorem c4_loop_stops_exactly_at_cap (env : Env) (tcs : List ToolCall)
    (st : EngState)
    (hllm : ∀ n msgs, ∃ r, env.llm n msgs = Except.ok r ∧ r.toolCalls ≠ [])
    (hne : tcs ≠ []) :
    (executeLLMRequestedToolCalls env tcs st).1 = Except.ok () ∧
    (executeLLMRequestedToolCalls env tcs st).2.nLLM = st.nLLM + maxIterations ∧
    ∃ Δ : List Message,
      (executeLLMRequestedToolCalls env tcs st).2.news = st.news ++ Δ ∧ Δ ≠ [] := by
  obtain ⟨h1, h2, Δ, h3, h4⟩ := runRounds_cap env hllm maxIterations tcs st hne
  exact ⟨h1, h2, Δ, h3, h4 (by decide)⟩

/-- Witness for **C4**: a model that always requests the same tool call. -/
theorem c4_loop_stops_exactly_at_cap_witness :
    (executeLLMRequestedToolCalls envLoop [tcUnknown] stEmpty).1 = Except.ok () ∧
    (executeLLMRequestedToolCalls envLoop [tcUnknown] stEmpty).2.nLLM =
      stEmpty.nLLM + maxIterations ∧
    ∃ Δ : List Message,
      (executeLLMRequestedToolCalls envLoop [tcUnknown] stEmpty).2.news =
        stEmpty.news ++ Δ ∧ Δ ≠ [] :=
  c4_loop_stops_exactly_at_cap envLoop [tcUnknown] stEmpty
    (fun _ _ => ⟨⟨"", [tcUnknown]⟩, rfl, by decide⟩) (by decide)

/-- **C5** (confirmed).  `SendUserMessageWithCallback` fails exactly when
an LLM call fails: if every LLM call succeeds the operation returns a
message list (whatever the JSON decoding, command executions and process
kills do — the environment is universally quantified, so no tool-level
failure can abort the loop); and every returned error is an LLM-call
error, either the initial call's error verbatim or an in-loop error
wrapped by the loop.  A failing tool execution instead contributes its
textual result as the content of the appended tool message
(`processOne`/`dispatch`). -/
theorem c5_error_iff_llm_failure (env : Env) (conv0 : Conversation)
    (pm0 : List ProcessInfo) (content : String) :
    ((∀ n msgs, ∃ r, env.llm n msgs = Except.ok r) →
      ∃ msgs, (SendUserMessageWithCallback env conv0 pm0 content).1 = Except.ok msgs) ∧
    (∀ e, (SendUserMessageWithCallback env conv0 pm0 content).1 = Except.error e →
      ∃ n msgs e0, env.llm n msgs = Except.error e0 ∧
        (e = e0 ∨ e = "can't send message with tool responses: " ++ e0)) := by
  constructor
  · intro hllm
    exact sendRest_ok_of_llm_ok env (afterUserState env conv0 pm0 content) hllm
  · intro e h
    exact sendRest_error_from_llm env (afterUserState env conv0 pm0 content) e h

/-- Witness for **C5**, in both directions: an always-succeeding model
yields a successful send, and a send that returned an error did so
because an LLM call failed. -/
theorem c5_error_iff_llm_failure_witness :
    (∃ msgs, (SendUserMessageWithCallback envC6 ⟨"c", []⟩ [] "hi").1 =
      Except.ok msgs) ∧
    (∃ n msgs e0, envLLMFail.llm n msgs = Except.error e0 ∧
      ("boom" = e0 ∨
        "boom" = "can't send message with tool responses: " ++ e0)) :=
  ⟨(c5_error_iff_llm_failure envC6 ⟨"c", []⟩ [] "hi").1
      (fun _ _ => ⟨⟨"done", []⟩, rfl⟩),
    (c5_error_iff_llm_failure envLLMFail ⟨"c", []⟩ [] "hi").2 "boom" rfl⟩

/-- **C7** (confirmed).  Killing a PID with no registered record returns
the "process %d not found" error and never succeeds silently; through the
`kill_process` tool the appended result content is the error prefixed
with "Error killing process: ", which ends in "not found"; and when the
LLM calls succeed the loop containing such a call completes without
error. -/
theorem c7_kill_unknown_pid_not_found (env : Env) (side : SideState) (pid : Int)
    (cid : String) (tc : ToolCall) (tcs : List ToolCall) (st : EngState)
    (args : List (String × JsonVal))
    (hfind : side.pm.find? (fun i => i.PID = pid) = none)
    (hname : tc.Name = "kill_process")
    (hparse : env.parseJson tc.Arguments = Except.ok args)
    (hpid : lookupArg args "pid" = some (JsonVal.num pid))
    (hllm : ∀ n msgs, ∃ r, env.llm n msgs = Except.ok r) :
    KillProcess env side pid =
      (Except.error ("process " ++ toString pid ++ " not found"), side) ∧
    dispatch env side cid tc =
      ("Error killing process: " ++ ("process " ++ toString pid ++ " not found"),
        side) ∧
    (runRounds env maxIterations tcs st).1 = Except.ok () := by
  have hk : KillProcess env side pid =
      (Except.error ("process " ++ toString pid ++ " not found"), side) := by
    unfold KillProcess
    rw [hfind]
  have hb : tc.Name ≠ "bash_command" := by rw [hname]; decide
  have hl : tc.Name ≠ "list_processes" := by rw [hname]; decide
  refine ⟨hk, ?_, runRounds_ok_of_llm_ok env hllm maxIterations tcs st⟩
  simp [dispatch, hb, hl, hname, hparse, hpid, asNum, hk]

/-- Witness for **C7**: PID 12345 against an empty registry, through the
`kill_process` tool call `tcKill`. -/
theorem c7_kill_unknown_pid_not_found_witness :
    KillProcess envC6 sideEmpty 12345 =
      (Except.error ("process " ++ toString (12345 : Int) ++ " not found"),
        sideEmpty) ∧
    dispatch envC6 sideEmpty "c" tcKill =
      ("Error killing process: " ++
        ("process " ++ toString (12345 : Int) ++ " not found"), sideEmpty) ∧
    (runRounds envC6 maxIterations [tcKill] stEmpty).1 = Except.ok () :=
  c7_kill_unknown_pid_not_found envC6 sideEmpty 12345 "c" tcKill [tcKill] stEmpty
    [("pid", JsonVal.num 12345)] rfl rfl rfl rfl
    (fun _ _ => ⟨⟨"done", []⟩, rfl⟩)

/-- **C9** (confirmed).  When a callback is supplied, the callback trace
of a full send operation equals the list of newly produced messages — the
callback fires exactly once per appended message, in append order, and
never for a message that was not appended — and the conversation log
afterwards is the original log extended by exactly that list, in the same
order. -/
theorem c9_callback_once_per_append_in_order (env : Env) (conv0 : Conversation)
    (pm0 : List ProcessInfo) (content : String) (hcb : env.hasCallback = true) :
    (SendUserMessageWithCallback env conv0 pm0 content).2.cbTrace =
      (SendUserMessageWithCallback env conv0 pm0 content).2.news ∧
    (SendUserMessageWithCallback env conv0 pm0 content).2.conv.Messages =
      conv0.Messages ++ (SendUserMessageWithCallback env conv0 pm0 content).2.news := by
  have step : TraceDelta env (initState conv0 pm0)
      { initState conv0 pm0 with tick := (initState conv0 pm0).tick + 1 } :=
    ⟨[], by simp, by simp, by simp, fun _ => by simp⟩
  have h1 : TraceDelta env (initState conv0 pm0)
      (afterUserState env conv0 pm0 content) :=
    TraceDelta.trans' step (traceDelta_appendNewMessage env _ _)
  have h2 := TraceDelta.trans' h1
    (traceDelta_sendRest env (afterUserState env conv0 pm0 content))
  obtain ⟨Δ, hn, hc, _, hcbf⟩ := h2
  have hN : (SendUserMessageWithCallback env conv0 pm0 content).2.news = Δ := by
    simpa [SendUserMessageWithCallback, initState] using hn
  have hCB : (SendUserMessageWithCallback env conv0 pm0 content).2.cbTrace = Δ := by
    simpa [SendUserMessageWithCallback, initState] using hcbf hcb
  have hC : (SendUserMessageWithCallback env conv0 pm0 content).2.conv.Messages =
      conv0.Messages ++ Δ := by
    simpa [SendUserMessageWithCallback, initState] using hc
  exact ⟨by rw [hCB, hN], by rw [hC, hN]⟩

/-- Witness for **C9** at a concrete environment with a callback. -/
theorem c9_callback_once_per_append_in_order_witness :
    (SendUserMessageWithCallback envC6 ⟨"c", []⟩ [] "hi").2.cbTrace =
      (SendUserMessageWithCallback envC6 ⟨"c", []⟩ [] "hi").2.news ∧
    (SendUserMessageWithCallback envC6 ⟨"c", []⟩ [] "hi").2.conv.Messages =
      (⟨"c", []⟩ : Conversation).Messages ++
        (SendUserMessageWithCallback envC6 ⟨"c", []⟩ [] "hi").2.news :=
  c9_callback_once_per_append_in_order envC6 ⟨"c", []⟩ [] "hi" rfl

/-- **C10** (confirmed).  When the initial LLM call fails, the operation
returns the bare error with no messages, yet the user message has already
been appended to the conversation log and its persistence attempted, and
it is not rolled back: the final log is the original log plus the user
message, the user message is in the attempted-save trace, and rendering
the conversation afterwards emits the user entry. -/
theorem c10_user_message_survives_llm_failure (env : Env) (conv0 : Conversation)
    (pm0 : List ProcessInfo) (content : String) (e : String)
    (hfail : ∀ msgs, env.llm 0 msgs = Except.error e) :
    (SendUserMessageWithCallback env conv0 pm0 content).1 = Except.error e ∧
    (SendUserMessageWithCallback env conv0 pm0 content).2.conv.Messages =
      conv0.Messages ++ [⟨"msg_0", "user", content, [], ""⟩] ∧
    (⟨"msg_0", "user", content, [], ""⟩ : Message) ∈
      (SendUserMessageWithCallback env conv0 pm0 content).2.dbTrace ∧
    ∃ pre post,
      (SendUserMessageWithCallback env conv0 pm0 content).2.conv.ToOpenAIMessages =
        pre ++ OpenAIMessage.user content :: post := by
  have h0 : env.llm (afterUserState env conv0 pm0 content).nLLM
      (afterUserState env conv0 pm0 content).conv.ToOpenAIMessages =
      Except.error e := hfail _
  have hres : SendUserMessageWithCallback env conv0 pm0 content =
      (Except.error e,
        { afterUserState env conv0 pm0 content with
            nLLM := (afterUserState env conv0 pm0 content).nLLM + 1 }) := by
    unfold SendUserMessageWithCallback sendRest sendUserMessageToLLM
    rw [h0]
  have hid : ("msg_" ++ toString (0 : Nat)) = "msg_0" := by decide
  refine ⟨by rw [hres], ?_, ?_, ?_⟩
  · rw [hres]
    show conv0.Messages ++
        [⟨"msg_" ++ toString (0 : Nat), "user", content, [], ""⟩] =
      conv0.Messages ++ [⟨"msg_0", "user", content, [], ""⟩]
    rw [hid]
  · rw [hres]
    show (⟨"msg_0", "user", content, [], ""⟩ : Message) ∈
      [⟨"msg_" ++ toString (0 : Nat), "user", content, [], ""⟩]
    rw [hid]
    exact List.mem_singleton_self _
  · obtain ⟨pre, post, h⟩ := renderWalk_append
      ⟨"msg_" ++ toString (0 : Nat), "user", content, [], ""⟩ conv0.Messages []
    refine ⟨pre, post, ?_⟩
    rw [hres]
    show renderWalk (conv0.Messages ++
        [⟨"msg_" ++ toString (0 : Nat), "user", content, [], ""⟩]) [] =
      pre ++ OpenAIMessage.user content :: post
    have hu : ToOpenAIMessage
        ⟨"msg_" ++ toString (0 : Nat), "user", content, [], ""⟩ =
        OpenAIMessage.user content := by
      simp [ToOpenAIMessage]
    rw [h, hu]

/-- Witness for **C10** at a concrete failing environment. -/
theorem c10_user_message_survives_llm_failure_witness :
    (SendUserMessageWithCallback envLLMFail ⟨"c", []⟩ [] "hi").1 =
      Except.error "boom" ∧
    (SendUserMessageWithCallback envLLMFail ⟨"c", []⟩ [] "hi").2.conv.Messages =
      (⟨"c", []⟩ : Conversation).Messages ++ [⟨"msg_0", "user", "hi", [], ""⟩] ∧
    (⟨"msg_0", "user", "hi", [], ""⟩ : Message) ∈
      (SendUserMessageWithCallback envLLMFail ⟨"c", []⟩ [] "hi").2.dbTrace ∧
    ∃ pre post,
      (SendUserMessageWithCallback envLLMFail ⟨"c", []⟩ [] "hi").2.conv.ToOpenAIMessages =
        pre ++ OpenAIMessage.user "hi" :: post :=
  c10_user_message_survives_llm_failure envLLMFail ⟨"c", []⟩ [] "hi" "boom"
    (fun _ => rfl)
